import Mathlib

/-!
Shallow embedding of the grid-trading simulation engine
(`GridTradingStrategy`, file `src/unnamed/part_011`) of the
`gridfu/sui-mcp-agent` repository, together with theorems settling the
frozen claims about it.

JavaScript `number` arithmetic is modelled by exact rational arithmetic
(`ℚ`); `Math.floor` is `Int.floor`; a JavaScript `TypeError` (reading a
property of `undefined`) is modelled by `Option`, with `none` standing
for the thrown exception.  The `timestamp : Date` field of an executed
order is wall-clock display data never read by any computation and is
omitted from the embedding.
-/

set_option linter.unusedVariables false

namespace GridTrading

/-- Configuration of the strategy (`GridTradingConfig`).  The two token
address strings are never used by the engine's arithmetic and are
omitted. -/
structure GridTradingConfig where
  upperPrice : ℚ
  lowerPrice : ℚ
  gridCount : ℕ
  totalInvestment : ℚ
  deriving DecidableEq, Repr

/-- A single grid level (`GridLevel`). -/
structure GridLevel where
  price : ℚ
  buyOrderSize : ℚ
  sellOrderSize : ℚ
  deriving DecidableEq, Repr

/-- The `'buy' | 'sell'` union type of an executed order. -/
inductive OrderType where
  | buy
  | sell
  deriving DecidableEq, Repr

/-- An entry of the trade history (`ExecutedOrder`), minus the unused
wall-clock `timestamp`. -/
structure ExecutedOrder where
  type : OrderType
  price : ℚ
  quantity : ℚ
  gridIndex : ℤ
  deriving DecidableEq, Repr

/-- The constraints checked by `validateConfig` in the constructor
(`upperPrice > lowerPrice`, `gridCount ≥ 2`, `totalInvestment > 0`)
together with `lowerPrice > 0`, which the spec's data model demands
(`upperPrice > lowerPrice > 0`). -/
structure ValidConfig (cfg : GridTradingConfig) : Prop where
  lower_pos : 0 < cfg.lowerPrice
  lower_lt_upper : cfg.lowerPrice < cfg.upperPrice
  two_le_gridCount : 2 ≤ cfg.gridCount
  investment_pos : 0 < cfg.totalInvestment

/-- `this.gridSpacing = (upperPrice - lowerPrice) / gridCount`. -/
def gridSpacing (cfg : GridTradingConfig) : ℚ :=
  (cfg.upperPrice - cfg.lowerPrice) / (cfg.gridCount : ℚ)

/-- `investmentPerGrid = totalInvestment / gridCount`. -/
def investmentPerGrid (cfg : GridTradingConfig) : ℚ :=
  cfg.totalInvestment / (cfg.gridCount : ℚ)

/-- Price of grid level `i`: `lowerPrice + i * gridSpacing`. -/
def levelPrice (cfg : GridTradingConfig) (i : ℕ) : ℚ :=
  cfg.lowerPrice + (i : ℚ) * gridSpacing cfg

/-- Buy order size of grid level `i`: `investmentPerGrid / price`. -/
def buySizeAt (cfg : GridTradingConfig) (i : ℕ) : ℚ :=
  investmentPerGrid cfg / levelPrice cfg i

/-- One step of the `calculateGridLevels` loop of `src/unnamed/part_011`:
iteration `n` appends level `n`, whose `sellOrderSize` is
`n > 0 ? levels[n-1].buyOrderSize : 0`; `levels[n-1]` is the last element
of the list built so far. -/
def calculateGridLevelsAux (cfg : GridTradingConfig) : ℕ → List GridLevel
  | 0 => []
  | n + 1 =>
      let levels := calculateGridLevelsAux cfg n
      let price := levelPrice cfg n
      let buyOrderSize := investmentPerGrid cfg / price
      let sellOrderSize :=
        if 0 < n then ((levels.getLast?).map GridLevel.buyOrderSize).getD 0 else 0
      levels ++ [⟨price, buyOrderSize, sellOrderSize⟩]

/-- `calculateGridLevels` of `src/unnamed/part_011`: the loop runs for
`i = 0 .. gridCount`, i.e. `gridCount + 1` iterations. -/
def calculateGridLevels (cfg : GridTradingConfig) : List GridLevel :=
  calculateGridLevelsAux cfg (cfg.gridCount + 1)

/-- Closed form of level `i` as produced by `calculateGridLevels`. -/
def levelAt (cfg : GridTradingConfig) (i : ℕ) : GridLevel :=
  ⟨levelPrice cfg i, buySizeAt cfg i, if 0 < i then buySizeAt cfg (i - 1) else 0⟩

/-- `calculateGridLevels` of the divergent variant `src/src/grid-trading.ts`,
whose loop sets `sellOrderSize = buyOrderSize` at every level. -/
def calculateGridLevelsVariant (cfg : GridTradingConfig) : List GridLevel :=
  (List.range (cfg.gridCount + 1)).map fun (i : ℕ) =>
    let price := cfg.lowerPrice + (i : ℚ) * gridSpacing cfg
    let buyOrderSize := investmentPerGrid cfg / price
    ⟨price, buyOrderSize, buyOrderSize⟩

theorem calculateGridLevelsAux_eq (cfg : GridTradingConfig) (n : ℕ) :
    calculateGridLevelsAux cfg n = (List.range n).map (levelAt cfg) := by
  induction n with
  | zero => rfl
  | succ n ih =>
      rw [calculateGridLevelsAux, ih, List.range_succ, List.map_append]
      congr 1
      simp only [List.map_cons, List.map_nil, List.cons.injEq, and_true]
      unfold levelAt
      rcases Nat.eq_zero_or_pos n with hn | hn
      · subst hn; simp [buySizeAt]
      · have hne : (List.range n).map (levelAt cfg) ≠ [] := by
          simp [List.range_eq_nil, Nat.pos_iff_ne_zero.mp hn]
        obtain ⟨m, hm⟩ := Nat.exists_eq_succ_of_ne_zero (Nat.pos_iff_ne_zero.mp hn)
        subst hm
        rw [List.range_succ, List.map_append]
        simp [List.getLast?_append, buySizeAt, hn]

/-- The mutable per-instance state of a `GridTradingStrategy`. -/
structure StrategyState where
  lastPrice : Option ℚ
  executedOrders : List ExecutedOrder
  baseTokenBalance : ℚ
  quoteTokenBalance : ℚ
  deriving DecidableEq, Repr

/-- The state right after the constructor ran: `lastPrice = null`, no
executed orders, `baseTokenBalance = 0`,
`quoteTokenBalance = totalInvestment`. -/
def initState (cfg : GridTradingConfig) : StrategyState :=
  ⟨none, [], 0, cfg.totalInvestment⟩

/-- `getCurrentGridIndex`: `-1` outside `[lowerPrice, upperPrice]`, else
`Math.floor((currentPrice - lowerPrice) / gridSpacing)`. -/
def getCurrentGridIndex (cfg : GridTradingConfig) (currentPrice : ℚ) : ℤ :=
  if currentPrice < cfg.lowerPrice ∨ cfg.upperPrice < currentPrice then -1
  else ⌊(currentPrice - cfg.lowerPrice) / gridSpacing cfg⌋

/-- `getOrderSizeAtPrice`: looks up `gridLevels[index]`.  In JavaScript an
out-of-bounds index (in particular the sentinel `-1`) yields `undefined`
and the subsequent property read throws a `TypeError`; that exception is
modelled by `none`. -/
def getOrderSizeAtPrice (cfg : GridTradingConfig) (price : ℚ)
    (orderType : OrderType) : Option ℚ :=
  let index := getCurrentGridIndex cfg price
  if 0 ≤ index then
    ((calculateGridLevels cfg).get? index.toNat).map fun level =>
      match orderType with
      | .buy => level.buyOrderSize
      | .sell => level.sellOrderSize
  else none

/-- `executeBuy`.  `none` models the `TypeError` thrown inside
`getOrderSizeAtPrice` (which happens before any state mutation);
otherwise the result is the new state and the returned boolean. -/
def executeBuy (cfg : GridTradingConfig) (s : StrategyState) (price : ℚ) :
    Option (StrategyState × Bool) :=
  match getOrderSizeAtPrice cfg price .buy with
  | none => none
  | some quantity =>
      let cost := quantity * price
      if s.quoteTokenBalance < cost then some (s, false)
      else
        let gridIndex := getCurrentGridIndex cfg price
        some
          ({ s with
              executedOrders := s.executedOrders ++ [⟨.buy, price, quantity, gridIndex⟩]
              quoteTokenBalance := s.quoteTokenBalance - cost
              baseTokenBalance := s.baseTokenBalance + quantity }, true)

/-- `executeSell`, symmetric to `executeBuy`. -/
def executeSell (cfg : GridTradingConfig) (s : StrategyState) (price : ℚ) :
    Option (StrategyState × Bool) :=
  match getOrderSizeAtPrice cfg price .sell with
  | none => none
  | some quantity =>
      if s.baseTokenBalance < quantity then some (s, false)
      else
        let gridIndex := getCurrentGridIndex cfg price
        some
          ({ s with
              executedOrders := s.executedOrders ++ [⟨.sell, price, quantity, gridIndex⟩]
              baseTokenBalance := s.baseTokenBalance - quantity
              quoteTokenBalance := s.quoteTokenBalance + quantity * price }, true)

/-- `checkPriceMovement`.  `none` models a `TypeError` escaping from
`executeBuy`/`executeSell`; in that case no field of the object has been
mutated yet (the `lastPrice` assignment comes after the call that
throws), so the live state is unchanged. -/
def checkPriceMovement (cfg : GridTradingConfig) (s : StrategyState)
    (currentPrice : ℚ) : Option StrategyState :=
  let currentIndex := getCurrentGridIndex cfg currentPrice
  match s.lastPrice with
  | none =>
      if currentIndex = 0 then
        (executeBuy cfg s currentPrice).map fun p =>
          { p.1 with lastPrice := some currentPrice }
      else some { s with lastPrice := some currentPrice }
  | some lp =>
      let previousIndex := getCurrentGridIndex cfg lp
      if currentIndex < previousIndex then
        (executeBuy cfg s currentPrice).map fun p =>
          { p.1 with lastPrice := some currentPrice }
      else if previousIndex < currentIndex then
        (executeSell cfg s currentPrice).map fun p =>
          { p.1 with lastPrice := some currentPrice }
      else some { s with lastPrice := some currentPrice }

/-- One observation as seen from a caller that survives the exception:
on a `TypeError` the object's state is unchanged (`checkPriceMovement`
mutates nothing before the potential throw). -/
def observePrice (cfg : GridTradingConfig) (s : StrategyState) (p : ℚ) :
    StrategyState :=
  (checkPriceMovement cfg s p).getD s

/-- Feeding a sequence of price observations, one at a time. -/
def observeAll (cfg : GridTradingConfig) (s : StrategyState) (ps : List ℚ) :
    StrategyState :=
  ps.foldl (observePrice cfg) s

/-- An open buy lot of the FIFO replay (`{price, quantity}` object pushed
on `buyStack`). -/
structure BuyLot where
  price : ℚ
  quantity : ℚ
  deriving DecidableEq, Repr

/-- The inner `while` loop of `getCurrentProfitLoss` processing one sell
order: returns `(realized-PnL delta, quantity consumed, new buyStack)`.
The loop runs while `sellQtyRemaining > 0 && buyStack.length > 0`;
`usedQty = min(sellQtyRemaining, oldestBuy.quantity)`; the front lot is
shifted exactly when its quantity becomes `0`. -/
def processSell (orderPrice : ℚ) : List BuyLot → ℚ → ℚ × ℚ × List BuyLot
  | [], _ => (0, 0, [])
  | oldestBuy :: rest, sellQtyRemaining =>
      if 0 < sellQtyRemaining then
        let usedQty := min sellQtyRemaining oldestBuy.quantity
        if oldestBuy.quantity - usedQty = 0 then
          let r := processSell orderPrice rest (sellQtyRemaining - usedQty)
          ((orderPrice - oldestBuy.price) * usedQty + r.1, usedQty + r.2.1, r.2.2)
        else
          ((orderPrice - oldestBuy.price) * usedQty, usedQty,
            ⟨oldestBuy.price, oldestBuy.quantity - usedQty⟩ :: rest)
      else (0, 0, oldestBuy :: rest)

/-- The running accumulator of `getCurrentProfitLoss`'s replay loop:
`buyStack`, `realizedPnL`, `totalRemainingQty`. -/
structure PnlAcc where
  buyStack : List BuyLot
  realizedPnL : ℚ
  totalRemainingQty : ℚ
  deriving DecidableEq, Repr

/-- One iteration of the `for (const order of this.executedOrders)` loop
of `getCurrentProfitLoss`. -/
def pnlStep (acc : PnlAcc) (order : ExecutedOrder) : PnlAcc :=
  match order.type with
  | .buy =>
      { acc with
          buyStack := acc.buyStack ++ [⟨order.price, order.quantity⟩]
          totalRemainingQty := acc.totalRemainingQty + order.quantity }
  | .sell =>
      let r := processSell order.price acc.buyStack order.quantity
      { buyStack := r.2.2
        realizedPnL := acc.realizedPnL + r.1
        totalRemainingQty := acc.totalRemainingQty - r.2.1 }

/-- `getCurrentProfitLoss` of `src/unnamed/part_011`: FIFO replay of the
executed orders, then
`averageCost = totalRemainingQty > 0 ? Σ price·quantity / totalRemainingQty : 0`,
`unrealizedPnL = totalRemainingQty * (currentPrice - averageCost)`,
result `realizedPnL + unrealizedPnL`. -/
def getCurrentProfitLoss (s : StrategyState) (currentPrice : ℚ) : ℚ :=
  let acc := s.executedOrders.foldl pnlStep ⟨[], 0, 0⟩
  let averageCost :=
    if 0 < acc.totalRemainingQty then
      (acc.buyStack.foldl (fun sum buy => sum + buy.price * buy.quantity) 0) /
        acc.totalRemainingQty
    else 0
  let unrealizedPnL := acc.totalRemainingQty * (currentPrice - averageCost)
  acc.realizedPnL + unrealizedPnL

/-- Modelled from the spec (§4.4, FIFO cost basis reference definition),
the consume loop for one sell of quantity `q`:
`used = min(q, frontLot.remainingQuantity)`;
`realizedPnL += (sellPrice − frontLot.price) × used`; both `q` and the
front lot's remaining quantity are decremented by `used`; the front lot
is popped when its remaining quantity reaches zero.  Returns the
realized-PnL contribution and the remaining queue. -/
def specConsume (sellPrice : ℚ) : List BuyLot → ℚ → ℚ × List BuyLot
  | [], _ => (0, [])
  | frontLot :: queue, q =>
      if 0 < q then
        let used := min q frontLot.quantity
        if frontLot.quantity - used = 0 then
          let r := specConsume sellPrice queue (q - used)
          ((sellPrice - frontLot.price) * used + r.1, r.2)
        else
          ((sellPrice - frontLot.price) * used,
            ⟨frontLot.price, frontLot.quantity - used⟩ :: queue)
      else (0, frontLot :: queue)

/-- Modelled from the spec (§4.4): one replayed history entry over the
accumulator `(realizedPnL, queue of open lots)`; a buy pushes a lot
`(price, quantity)` at the back of the queue, a sell runs the consume
loop. -/
def specStep (acc : ℚ × List BuyLot) (order : ExecutedOrder) :
    ℚ × List BuyLot :=
  match order.type with
  | .buy => (acc.1, acc.2 ++ [⟨order.price, order.quantity⟩])
  | .sell =>
      let r := specConsume order.price acc.2 order.quantity
      (acc.1 + r.1, r.2)

/-- Modelled from the spec (§4.4): replay of the history in chronological
order starting from `realizedPnL = 0` and an empty queue. -/
def specReplay (orders : List ExecutedOrder) : ℚ × List BuyLot :=
  orders.foldl specStep (0, [])

/-- Total remaining quantity of a lot queue: `Σ lot.remainingQuantity`. -/
def lotQuantitySum (lots : List BuyLot) : ℚ :=
  (lots.map BuyLot.quantity).sum

/-- Open cost of a lot queue: `Σ lot.price × lot.remainingQuantity`. -/
def lotCostSum (lots : List BuyLot) : ℚ :=
  (lots.map fun l => l.price * l.quantity).sum

/-- Modelled from the spec (§4.4): the FIFO cost-basis reference PnL.
`averageOpenCost` is the quantity-weighted mean price of the remaining
lots (`0` if none remain);
`unrealizedPnL = totalRemainingQuantity × (currentPrice − averageOpenCost)`;
the result is `realizedPnL + unrealizedPnL`. -/
def specFifoPnL (orders : List ExecutedOrder) (currentPrice : ℚ) : ℚ :=
  let r := specReplay orders
  let totalRemainingQuantity := lotQuantitySum r.2
  let averageOpenCost :=
    if r.2 = [] then 0 else lotCostSum r.2 / totalRemainingQuantity
  let unrealizedPnL := totalRemainingQuantity * (currentPrice - averageOpenCost)
  r.1 + unrealizedPnL

/-- A fixed configuration used for concrete witnesses and counterexamples:
`lowerPrice = 20000`, `upperPrice = 30000`, `gridCount = 10`,
`totalInvestment = 100000` (the spec's §8 round-trip configuration). -/
def cfg0 : GridTradingConfig :=
  ⟨30000, 20000, 10, 100000⟩

theorem calculateGridLevels_eq_map (cfg : GridTradingConfig) :
    calculateGridLevels cfg = (List.range (cfg.gridCount + 1)).map (levelAt cfg) :=
  calculateGridLevelsAux_eq cfg (cfg.gridCount + 1)

theorem length_calculateGridLevels (cfg : GridTradingConfig) :
    (calculateGridLevels cfg).length = cfg.gridCount + 1 := by
  rw [calculateGridLevels_eq_map]
  simp

theorem calculateGridLevels_get? (cfg : GridTradingConfig) {i : ℕ}
    (h : i < cfg.gridCount + 1) :
    (calculateGridLevels cfg).get? i = some (levelAt cfg i) := by
  rw [calculateGridLevels_eq_map, List.get?_eq_getElem?, List.getElem?_map,
    List.getElem?_range h]
  rfl

theorem calculateGridLevels_get?_eq_some {cfg : GridTradingConfig} {i : ℕ}
    {l : GridLevel} (h : (calculateGridLevels cfg).get? i = some l) :
    i < cfg.gridCount + 1 ∧ l = levelAt cfg i := by
  have hlt : i < (calculateGridLevels cfg).length := by
    by_contra hge
    rw [List.get?_eq_getElem?, List.getElem?_eq_none (Nat.le_of_not_lt hge)] at h
    exact Option.noConfusion h
  rw [length_calculateGridLevels] at hlt
  refine ⟨hlt, ?_⟩
  rw [calculateGridLevels_get? cfg hlt] at h
  exact (Option.some.injEq _ _).mp h.symm

theorem calculateGridLevelsVariant_get? (cfg : GridTradingConfig) {i : ℕ}
    (h : i < cfg.gridCount + 1) :
    (calculateGridLevelsVariant cfg).get? i =
      some ⟨levelPrice cfg i, buySizeAt cfg i, buySizeAt cfg i⟩ := by
  rw [calculateGridLevelsVariant, List.get?_eq_getElem?, List.getElem?_map,
    List.getElem?_range h]
  rfl

theorem gridSpacing_pos {cfg : GridTradingConfig} (h : ValidConfig cfg) :
    0 < gridSpacing cfg := by
  have hg : (0 : ℚ) < (cfg.gridCount : ℚ) := by
    exact_mod_cast Nat.lt_of_lt_of_le (by norm_num) h.two_le_gridCount
  exact div_pos (sub_pos.mpr h.lower_lt_upper) hg

theorem levelPrice_pos {cfg : GridTradingConfig} (h : ValidConfig cfg) (i : ℕ) :
    0 < levelPrice cfg i := by
  have : (0 : ℚ) ≤ (i : ℚ) * gridSpacing cfg :=
    mul_nonneg (Nat.cast_nonneg i) (le_of_lt (gridSpacing_pos h))
  have := add_pos_of_pos_of_nonneg h.lower_pos this
  simpa [levelPrice] using this

theorem investmentPerGrid_pos {cfg : GridTradingConfig} (h : ValidConfig cfg) :
    0 < investmentPerGrid cfg := by
  have hg : (0 : ℚ) < (cfg.gridCount : ℚ) := by
    exact_mod_cast Nat.lt_of_lt_of_le (by norm_num) h.two_le_gridCount
  exact div_pos h.investment_pos hg

theorem buySizeAt_pos {cfg : GridTradingConfig} (h : ValidConfig cfg) (i : ℕ) :
    0 < buySizeAt cfg i :=
  div_pos (investmentPerGrid_pos h) (levelPrice_pos h i)

/-- C6: for every valid configuration the builder produces exactly
`gridCount + 1` levels; level `i` has price
`lowerPrice + i · (upperPrice − lowerPrice)/gridCount` and buy order size
`(totalInvestment / gridCount) / price`; the first level sits at
`lowerPrice`, the last at `upperPrice`, and consecutive levels are a
constant `gridSpacing` apart. -/
theorem c6_grid_builder_postcondition (cfg : GridTradingConfig)
    (h : ValidConfig cfg) :
    (calculateGridLevels cfg).length = cfg.gridCount + 1 ∧
    (∀ i : ℕ, i ≤ cfg.gridCount →
      ∃ l : GridLevel, (calculateGridLevels cfg).get? i = some l ∧
        l.price = cfg.lowerPrice +
          (i : ℚ) * ((cfg.upperPrice - cfg.lowerPrice) / (cfg.gridCount : ℚ)) ∧
        l.buyOrderSize = (cfg.totalInvestment / (cfg.gridCount : ℚ)) / l.price) ∧
    levelPrice cfg 0 = cfg.lowerPrice ∧
    levelPrice cfg cfg.gridCount = cfg.upperPrice ∧
    (∀ i : ℕ, i < cfg.gridCount →
      levelPrice cfg (i + 1) - levelPrice cfg i = gridSpacing cfg) := by
  have hg : (cfg.gridCount : ℚ) ≠ 0 := by
    have : 0 < cfg.gridCount := Nat.lt_of_lt_of_le (by norm_num) h.two_le_gridCount
    exact_mod_cast Nat.pos_iff_ne_zero.mp this
  refine ⟨length_calculateGridLevels cfg, ?_, ?_, ?_, ?_⟩
  · intro i hi
    refine ⟨levelAt cfg i, calculateGridLevels_get? cfg (Nat.lt_succ_of_le hi), ?_, ?_⟩
    · rfl
    · rfl
  · simp [levelPrice]
  · rw [levelPrice, gridSpacing]
    field_simp
  · intro i hi
    rw [levelPrice, levelPrice]
    push_cast
    ring

/-- Witness for C6 at the concrete configuration `cfg0`. -/
theorem c6_grid_builder_postcondition_witness :
    ValidConfig cfg0 ∧
    (calculateGridLevels cfg0).length = cfg0.gridCount + 1 ∧
    levelPrice cfg0 0 = cfg0.lowerPrice ∧
    levelPrice cfg0 cfg0.gridCount = cfg0.upperPrice := by
  have hv : ValidConfig cfg0 := ⟨by norm_num [cfg0], by norm_num [cfg0],
    by norm_num [cfg0], by norm_num [cfg0]⟩
  obtain ⟨hlen, hlevels, h0, hup, hspace⟩ :=
    c6_grid_builder_postcondition cfg0 hv
  exact ⟨hv, hlen, h0, hup⟩

/-- C9 counterexample: with the spec's §8 configuration, level 1 of the
engine's grid has `sellOrderSize = 1/2` (level 0's buy size) but
`buyOrderSize = 10/21`, so the sell size does not equal the same level's
buy size. -/
theorem c9_counterexample :
    ((calculateGridLevels cfg0).get? 1).map GridLevel.sellOrderSize ≠
      ((calculateGridLevels cfg0).get? 1).map GridLevel.buyOrderSize := by
  rw [calculateGridLevels_get? cfg0 (by norm_num [cfg0])]
  simp only [Option.map_some, ne_eq, Option.some.injEq]
  norm_num [levelAt, buySizeAt, investmentPerGrid, levelPrice, gridSpacing, cfg0]

/-- C9 amended: in the engine of `src/unnamed/part_011` the sell order
size of level `i` equals the buy order size of the adjacent *lower*
level `i − 1` (and `0` at level `0`), while in the divergent variant
`src/src/grid-trading.ts` the sell order size equals the buy order size
of the same level. -/
theorem c9_sell_size_amended (cfg : GridTradingConfig) (i : ℕ)
    (l lv : GridLevel)
    (h : (calculateGridLevels cfg).get? i = some l)
    (hv : (calculateGridLevelsVariant cfg).get? i = some lv) :
    l.sellOrderSize = (if 0 < i then buySizeAt cfg (i - 1) else 0) ∧
    lv.sellOrderSize = lv.buyOrderSize := by
  obtain ⟨hi, rfl⟩ := calculateGridLevels_get?_eq_some h
  rw [calculateGridLevelsVariant_get? cfg hi] at hv
  obtain rfl := (Option.some.injEq _ _).mp hv.symm
  exact ⟨rfl, rfl⟩

/-- Witness for C9's amended theorem at the concrete configuration
`cfg0` and level `1`. -/
theorem c9_sell_size_amended_witness :
    (calculateGridLevels cfg0).get? 1 = some (levelAt cfg0 1) ∧
    (calculateGridLevelsVariant cfg0).get? 1 =
      some ⟨levelPrice cfg0 1, buySizeAt cfg0 1, buySizeAt cfg0 1⟩ ∧
    ((levelAt cfg0 1).sellOrderSize = (if 0 < 1 then buySizeAt cfg0 (1 - 1) else 0) ∧
      (GridLevel.mk (levelPrice cfg0 1) (buySizeAt cfg0 1) (buySizeAt cfg0 1)).sellOrderSize =
        (GridLevel.mk (levelPrice cfg0 1) (buySizeAt cfg0 1) (buySizeAt cfg0 1)).buyOrderSize) := by
  have h1 : (calculateGridLevels cfg0).get? 1 = some (levelAt cfg0 1) :=
    calculateGridLevels_get? cfg0 (by norm_num [cfg0])
  have h2 : (calculateGridLevelsVariant cfg0).get? 1 =
      some ⟨levelPrice cfg0 1, buySizeAt cfg0 1, buySizeAt cfg0 1⟩ :=
    calculateGridLevelsVariant_get? cfg0 (by norm_num [cfg0])
  exact ⟨h1, h2, c9_sell_size_amended cfg0 1 _ _ h1 h2⟩

theorem getCurrentGridIndex_of_inRange {cfg : GridTradingConfig} {p : ℚ}
    (h1 : cfg.lowerPrice ≤ p) (h2 : p ≤ cfg.upperPrice) :
    getCurrentGridIndex cfg p = ⌊(p - cfg.lowerPrice) / gridSpacing cfg⌋ := by
  rw [getCurrentGridIndex, if_neg]
  push_neg
  exact ⟨h1, h2⟩

theorem getCurrentGridIndex_of_outOfRange {cfg : GridTradingConfig} {p : ℚ}
    (h : p < cfg.lowerPrice ∨ cfg.upperPrice < p) :
    getCurrentGridIndex cfg p = -1 := by
  rw [getCurrentGridIndex, if_pos h]

theorem getCurrentGridIndex_lowerPrice {cfg : GridTradingConfig}
    (h : ValidConfig cfg) : getCurrentGridIndex cfg cfg.lowerPrice = 0 := by
  rw [getCurrentGridIndex_of_inRange le_rfl (le_of_lt h.lower_lt_upper)]
  simp

theorem getCurrentGridIndex_upperPrice {cfg : GridTradingConfig}
    (h : ValidConfig cfg) :
    getCurrentGridIndex cfg cfg.upperPrice = cfg.gridCount := by
  rw [getCurrentGridIndex_of_inRange (le_of_lt h.lower_lt_upper) le_rfl]
  have hs : gridSpacing cfg ≠ 0 := ne_of_gt (gridSpacing_pos h)
  have : (cfg.upperPrice - cfg.lowerPrice) / gridSpacing cfg = (cfg.gridCount : ℚ) := by
    rw [gridSpacing]
    have hg : (cfg.gridCount : ℚ) ≠ 0 := by
      have : 0 < cfg.gridCount := Nat.lt_of_lt_of_le (by norm_num) h.two_le_gridCount
      exact_mod_cast Nat.pos_iff_ne_zero.mp this
    have hu : cfg.upperPrice - cfg.lowerPrice ≠ 0 :=
      ne_of_gt (sub_pos.mpr h.lower_lt_upper)
    field_simp
  rw [this]
  exact_mod_cast Int.floor_natCast cfg.gridCount

theorem getCurrentGridIndex_nonneg_of_inRange {cfg : GridTradingConfig} {p : ℚ}
    (h : ValidConfig cfg) (h1 : cfg.lowerPrice ≤ p) (h2 : p ≤ cfg.upperPrice) :
    0 ≤ getCurrentGridIndex cfg p := by
  rw [getCurrentGridIndex_of_inRange h1 h2]
  apply Int.floor_nonneg.mpr
  exact div_nonneg (sub_nonneg.mpr h1) (le_of_lt (gridSpacing_pos h))

theorem getCurrentGridIndex_le_gridCount {cfg : GridTradingConfig} {p : ℚ}
    (h : ValidConfig cfg) :
    getCurrentGridIndex cfg p ≤ (cfg.gridCount : ℤ) := by
  rw [getCurrentGridIndex]
  split
  · have : (0 : ℤ) ≤ cfg.gridCount := Int.natCast_nonneg cfg.gridCount
    omega
  · rename_i hin
    push_neg at hin
    have h2 : p ≤ cfg.upperPrice := hin.2
    have hg : (0 : ℚ) < (cfg.gridCount : ℚ) := by
      exact_mod_cast Nat.lt_of_lt_of_le (by norm_num) h.two_le_gridCount
    have hle : (p - cfg.lowerPrice) / gridSpacing cfg ≤ (cfg.gridCount : ℚ) := by
      rw [div_le_iff₀ (gridSpacing_pos h), gridSpacing]
      have hcancel : (cfg.gridCount : ℚ) *
          ((cfg.upperPrice - cfg.lowerPrice) / (cfg.gridCount : ℚ)) =
          cfg.upperPrice - cfg.lowerPrice := by
        field_simp
      rw [hcancel]
      linarith
    calc ⌊(p - cfg.lowerPrice) / gridSpacing cfg⌋
        ≤ ⌊((cfg.gridCount : ℕ) : ℚ)⌋ := Int.floor_le_floor hle
      _ = (cfg.gridCount : ℤ) := Int.floor_natCast cfg.gridCount

/-- Every grid index the engine produces is at least `-1` (for a valid
configuration). -/
theorem neg_one_le_getCurrentGridIndex {cfg : GridTradingConfig} {p : ℚ}
    (h : ValidConfig cfg) :
    -1 ≤ getCurrentGridIndex cfg p := by
  rw [getCurrentGridIndex]
  split
  · exact le_rfl
  · rename_i hin
    push_neg at hin
    have := getCurrentGridIndex_nonneg_of_inRange h hin.1 hin.2
    rw [getCurrentGridIndex_of_inRange hin.1 hin.2] at this
    omega

theorem index_nonneg_of_getOrderSize_some {cfg : GridTradingConfig} {p q : ℚ}
    {t : OrderType} (hq : getOrderSizeAtPrice cfg p t = some q) :
    0 ≤ getCurrentGridIndex cfg p := by
  by_contra hneg
  rw [getOrderSizeAtPrice] at hq
  simp only [if_neg hneg] at hq
  exact Option.noConfusion hq

theorem inRange_of_index_nonneg {cfg : GridTradingConfig} {p : ℚ}
    (hi : 0 ≤ getCurrentGridIndex cfg p) :
    cfg.lowerPrice ≤ p ∧ p ≤ cfg.upperPrice := by
  by_contra hout
  rw [not_and_or, not_le, not_le] at hout
  rw [getCurrentGridIndex_of_outOfRange hout] at hi
  omega

theorem getOrderSizeAtPrice_eq_of_nonneg {cfg : GridTradingConfig} {p : ℚ}
    (h : ValidConfig cfg) (t : OrderType)
    (hi : 0 ≤ getCurrentGridIndex cfg p) :
    getOrderSizeAtPrice cfg p t =
      some (match t with
        | .buy => (levelAt cfg (getCurrentGridIndex cfg p).toNat).buyOrderSize
        | .sell => (levelAt cfg (getCurrentGridIndex cfg p).toNat).sellOrderSize) := by
  have hle : (getCurrentGridIndex cfg p).toNat < cfg.gridCount + 1 := by
    have := @getCurrentGridIndex_le_gridCount cfg p h
    omega
  rw [getOrderSizeAtPrice]
  simp only [if_pos hi, calculateGridLevels_get? cfg hle, Option.map_some]
  cases t <;> rfl

theorem getOrderSize_buy_pos {cfg : GridTradingConfig} {p q : ℚ}
    (h : ValidConfig cfg) (hq : getOrderSizeAtPrice cfg p .buy = some q) :
    0 < q := by
  have hi := index_nonneg_of_getOrderSize_some hq
  rw [getOrderSizeAtPrice_eq_of_nonneg h .buy hi] at hq
  obtain rfl := (Option.some.injEq _ _).mp hq.symm
  exact buySizeAt_pos h _

theorem getOrderSize_sell_nonneg {cfg : GridTradingConfig} {p q : ℚ}
    (h : ValidConfig cfg) (hq : getOrderSizeAtPrice cfg p .sell = some q) :
    0 ≤ q := by
  have hi := index_nonneg_of_getOrderSize_some hq
  rw [getOrderSizeAtPrice_eq_of_nonneg h .sell hi] at hq
  obtain rfl := (Option.some.injEq _ _).mp hq.symm
  simp only [levelAt]
  split
  · exact le_of_lt (buySizeAt_pos h ((getCurrentGridIndex cfg p).toNat - 1))
  · exact le_rfl

/-- Exhaustive description of one `observePrice` step: the state is
unchanged (a thrown `TypeError`), only `lastPrice` is updated (no
crossing, or an insufficient-balance no-op), or exactly one buy or one
sell is recorded with the matching balance updates. -/
theorem observePrice_cases (cfg : GridTradingConfig) (s : StrategyState)
    (p : ℚ) :
    observePrice cfg s p = s ∨
    observePrice cfg s p = { s with lastPrice := some p } ∨
    (∃ q : ℚ, getOrderSizeAtPrice cfg p .buy = some q ∧
      ¬ s.quoteTokenBalance < q * p ∧
      observePrice cfg s p =
        { lastPrice := some p
          executedOrders :=
            s.executedOrders ++ [⟨.buy, p, q, getCurrentGridIndex cfg p⟩]
          baseTokenBalance := s.baseTokenBalance + q
          quoteTokenBalance := s.quoteTokenBalance - q * p }) ∨
    (∃ q : ℚ, getOrderSizeAtPrice cfg p .sell = some q ∧
      ¬ s.baseTokenBalance < q ∧
      observePrice cfg s p =
        { lastPrice := some p
          executedOrders :=
            s.executedOrders ++ [⟨.sell, p, q, getCurrentGridIndex cfg p⟩]
          baseTokenBalance := s.baseTokenBalance - q
          quoteTokenBalance := s.quoteTokenBalance + q * p }) := by
  rw [observePrice, checkPriceMovement]
  cases hlp : s.lastPrice with
  | none =>
      simp only
      by_cases h0 : getCurrentGridIndex cfg p = 0
      · rw [if_pos h0, executeBuy]
        cases hq : getOrderSizeAtPrice cfg p .buy with
        | none => left; rfl
        | some q =>
            dsimp only
            by_cases hc : s.quoteTokenBalance < q * p
            · right; left
              rw [if_pos hc]
              rfl
            · right; right; left
              refine ⟨q, rfl, hc, ?_⟩
              rw [if_neg hc]
              rfl
      · right; left
        rw [if_neg h0]
        rfl
  | some lp =>
      simp only
      by_cases hdown : getCurrentGridIndex cfg p < getCurrentGridIndex cfg lp
      · rw [if_pos hdown, executeBuy]
        cases hq : getOrderSizeAtPrice cfg p .buy with
        | none => left; rfl
        | some q =>
            dsimp only
            by_cases hc : s.quoteTokenBalance < q * p
            · right; left
              rw [if_pos hc]
              rfl
            · right; right; left
              refine ⟨q, rfl, hc, ?_⟩
              rw [if_neg hc]
              rfl
      · rw [if_neg hdown]
        by_cases hup : getCurrentGridIndex cfg lp < getCurrentGridIndex cfg p
        · rw [if_pos hup, executeSell]
          cases hq : getOrderSizeAtPrice cfg p .sell with
          | none => left; rfl
          | some q =>
              dsimp only
              by_cases hc : s.baseTokenBalance < q
              · right; left
                rw [if_pos hc]
                rfl
              · right; right; right
                refine ⟨q, rfl, hc, ?_⟩
                rw [if_neg hc]
                rfl
        · right; left
          rw [if_neg hup]
          rfl

theorem validConfig_cfg0 : ValidConfig cfg0 :=
  ⟨by norm_num [cfg0], by norm_num [cfg0], by norm_num [cfg0], by norm_num [cfg0]⟩

theorem idx_cfg0_20000 : getCurrentGridIndex cfg0 20000 = 0 := by
  norm_num [getCurrentGridIndex, gridSpacing, cfg0]

theorem idx_cfg0_20500 : getCurrentGridIndex cfg0 20500 = 0 := by
  norm_num [getCurrentGridIndex, gridSpacing, cfg0]

theorem idx_cfg0_21000 : getCurrentGridIndex cfg0 21000 = 1 := by
  norm_num [getCurrentGridIndex, gridSpacing, cfg0]

theorem idx_cfg0_25000 : getCurrentGridIndex cfg0 25000 = 5 := by
  norm_num [getCurrentGridIndex, gridSpacing, cfg0]

theorem idx_cfg0_19000 : getCurrentGridIndex cfg0 19000 = -1 := by
  norm_num [getCurrentGridIndex, cfg0]

theorem buySize_cfg0_20000 :
    getOrderSizeAtPrice cfg0 20000 .buy = some (1/2) := by
  have h := @getOrderSizeAtPrice_eq_of_nonneg cfg0 20000 validConfig_cfg0
    OrderType.buy (by rw [idx_cfg0_20000])
  rw [idx_cfg0_20000] at h
  rw [h]
  norm_num [levelAt, buySizeAt, investmentPerGrid, levelPrice, gridSpacing, cfg0]

theorem sellSize_cfg0_21000 :
    getOrderSizeAtPrice cfg0 21000 .sell = some (1/2) := by
  have h := @getOrderSizeAtPrice_eq_of_nonneg cfg0 21000 validConfig_cfg0
    OrderType.sell (by rw [idx_cfg0_21000]; norm_num)
  rw [idx_cfg0_21000] at h
  rw [h]
  norm_num [levelAt, buySizeAt, investmentPerGrid, levelPrice, gridSpacing, cfg0]

theorem sellSize_cfg0_20000 :
    getOrderSizeAtPrice cfg0 20000 .sell = some 0 := by
  have h := @getOrderSizeAtPrice_eq_of_nonneg cfg0 20000 validConfig_cfg0
    OrderType.sell (by rw [idx_cfg0_20000])
  rw [idx_cfg0_20000] at h
  rw [h]
  norm_num [levelAt]

theorem buySize_cfg0_19000 :
    getOrderSizeAtPrice cfg0 19000 .buy = none := by
  rw [getOrderSizeAtPrice]
  simp only [idx_cfg0_19000]
  norm_num

/-- C4: with `qb`/`qs` the order sizes the engine derives at `p`, a buy
with `quoteBalance < qb·p` returns `false` and leaves the state
untouched, otherwise it debits the cost, credits the quantity and
appends exactly one buy order; a sell with `baseBalance < qs` returns
`false` and changes nothing, otherwise it debits `qs`, credits `qs·p`
and appends exactly one sell order. -/
theorem c4_insufficient_balance_noop (cfg : GridTradingConfig)
    (s : StrategyState) (p qb qs : ℚ)
    (hb : getOrderSizeAtPrice cfg p .buy = some qb)
    (hs : getOrderSizeAtPrice cfg p .sell = some qs) :
    (s.quoteTokenBalance < qb * p → executeBuy cfg s p = some (s, false)) ∧
    (¬ s.quoteTokenBalance < qb * p → executeBuy cfg s p = some
      ({ lastPrice := s.lastPrice
         executedOrders :=
           s.executedOrders ++ [⟨.buy, p, qb, getCurrentGridIndex cfg p⟩]
         baseTokenBalance := s.baseTokenBalance + qb
         quoteTokenBalance := s.quoteTokenBalance - qb * p }, true)) ∧
    (s.baseTokenBalance < qs → executeSell cfg s p = some (s, false)) ∧
    (¬ s.baseTokenBalance < qs → executeSell cfg s p = some
      ({ lastPrice := s.lastPrice
         executedOrders :=
           s.executedOrders ++ [⟨.sell, p, qs, getCurrentGridIndex cfg p⟩]
         baseTokenBalance := s.baseTokenBalance - qs
         quoteTokenBalance := s.quoteTokenBalance + qs * p }, true)) := by
  refine ⟨fun hc => ?_, fun hc => ?_, fun hc => ?_, fun hc => ?_⟩
  · rw [executeBuy, hb]
    dsimp only
    rw [if_pos hc]
  · rw [executeBuy, hb]
    dsimp only
    rw [if_neg hc]
  · rw [executeSell, hs]
    dsimp only
    rw [if_pos hc]
  · rw [executeSell, hs]
    dsimp only
    rw [if_neg hc]

/-- Witness for C4 at the initial state of the concrete configuration
`cfg0` and price `20000` (buy size `1/2`, sell size `0`): the buy
succeeds (cost `10000 ≤ 100000`), the sell succeeds vacuously with
quantity `0`. -/
theorem c4_insufficient_balance_noop_witness :
    getOrderSizeAtPrice cfg0 20000 .buy = some (1/2) ∧
    getOrderSizeAtPrice cfg0 20000 .sell = some 0 ∧
    ¬ (initState cfg0).quoteTokenBalance < (1/2 : ℚ) * 20000 ∧
    executeBuy cfg0 (initState cfg0) 20000 = some
      ({ lastPrice := (initState cfg0).lastPrice
         executedOrders := (initState cfg0).executedOrders ++
           [⟨.buy, 20000, 1/2, getCurrentGridIndex cfg0 20000⟩]
         baseTokenBalance := (initState cfg0).baseTokenBalance + 1/2
         quoteTokenBalance :=
           (initState cfg0).quoteTokenBalance - (1/2 : ℚ) * 20000 }, true) ∧
    executeSell cfg0 (initState cfg0) 20000 = some
      ({ lastPrice := (initState cfg0).lastPrice
         executedOrders := (initState cfg0).executedOrders ++
           [⟨.sell, 20000, 0, getCurrentGridIndex cfg0 20000⟩]
         baseTokenBalance := (initState cfg0).baseTokenBalance - 0
         quoteTokenBalance :=
           (initState cfg0).quoteTokenBalance + (0 : ℚ) * 20000 }, true) := by
  have hquote : ¬ (initState cfg0).quoteTokenBalance < (1/2 : ℚ) * 20000 := by
    norm_num [initState, cfg0]
  have hbase : ¬ (initState cfg0).baseTokenBalance < (0 : ℚ) := by
    norm_num [initState, cfg0]
  obtain ⟨h1, h2, h3, h4⟩ := c4_insufficient_balance_noop cfg0 (initState cfg0)
    20000 (1/2) 0 buySize_cfg0_20000 sellSize_cfg0_20000
  exact ⟨buySize_cfg0_20000, sellSize_cfg0_20000, hquote, h2 hquote, h4 hbase⟩

/-- Total quote spent by the buy orders of a history. -/
def buyCost (orders : List ExecutedOrder) : ℚ :=
  (orders.map fun o => match o.type with
    | .buy => o.price * o.quantity
    | .sell => 0).sum

/-- Total quote received by the sell orders of a history. -/
def sellProceeds (orders : List ExecutedOrder) : ℚ :=
  (orders.map fun o => match o.type with
    | .buy => 0
    | .sell => o.price * o.quantity).sum

/-- Total base quantity bought over a history. -/
def buyQuantity (orders : List ExecutedOrder) : ℚ :=
  (orders.map fun o => match o.type with
    | .buy => o.quantity
    | .sell => 0).sum

/-- Total base quantity sold over a history. -/
def sellQuantity (orders : List ExecutedOrder) : ℚ :=
  (orders.map fun o => match o.type with
    | .buy => 0
    | .sell => o.quantity).sum

/-- The C10 conservation property as a predicate on a state. -/
def LedgerConserved (cfg : GridTradingConfig) (s : StrategyState) : Prop :=
  s.quoteTokenBalance =
    cfg.totalInvestment - buyCost s.executedOrders + sellProceeds s.executedOrders ∧
  s.baseTokenBalance = buyQuantity s.executedOrders - sellQuantity s.executedOrders

theorem ledgerConserved_observePrice {cfg : GridTradingConfig}
    {s : StrategyState} (p : ℚ) (h : LedgerConserved cfg s) :
    LedgerConserved cfg (observePrice cfg s p) := by
  obtain ⟨hq, hb⟩ := h
  rcases observePrice_cases cfg s p with h1 | h1 | ⟨q, hsz, hc, h1⟩ | ⟨q, hsz, hc, h1⟩ <;>
    rw [LedgerConserved, h1]
  · exact ⟨hq, hb⟩
  · exact ⟨hq, hb⟩
  · constructor
    · simp only [buyCost, sellProceeds, List.map_append, List.sum_append,
        List.map_cons, List.map_nil, List.sum_cons, List.sum_nil] at hq ⊢
      rw [hq]
      ring
    · simp only [buyQuantity, sellQuantity, List.map_append, List.sum_append,
        List.map_cons, List.map_nil, List.sum_cons, List.sum_nil] at hb ⊢
      rw [hb]
      ring
  · constructor
    · simp only [buyCost, sellProceeds, List.map_append, List.sum_append,
        List.map_cons, List.map_nil, List.sum_cons, List.sum_nil] at hq ⊢
      rw [hq]
      ring
    · simp only [buyQuantity, sellQuantity, List.map_append, List.sum_append,
        List.map_cons, List.map_nil, List.sum_cons, List.sum_nil] at hb ⊢
      rw [hb]
      ring

theorem ledgerConserved_observeAll {cfg : GridTradingConfig}
    {s : StrategyState} (h : LedgerConserved cfg s) (ps : List ℚ) :
    LedgerConserved cfg (observeAll cfg s ps) := by
  induction ps generalizing s with
  | nil => exact h
  | cons p ps ih =>
      rw [observeAll, List.foldl_cons]
      exact ih (ledgerConserved_observePrice p h)

/-- C10: after every sequence of price observations from the initial
state, the balances are exactly determined by the recorded history:
`quoteBalance = totalInvestment − Σ buy price·quantity + Σ sell
price·quantity` and `baseBalance = Σ buy quantity − Σ sell quantity`.
(The claim asserts this for in-range observation sequences; it holds for
arbitrary ones.) -/
theorem c10_ledger_history_conservation (cfg : GridTradingConfig)
    (ps : List ℚ) :
    (observeAll cfg (initState cfg) ps).quoteTokenBalance =
      cfg.totalInvestment -
        buyCost (observeAll cfg (initState cfg) ps).executedOrders +
        sellProceeds (observeAll cfg (initState cfg) ps).executedOrders ∧
    (observeAll cfg (initState cfg) ps).baseTokenBalance =
      buyQuantity (observeAll cfg (initState cfg) ps).executedOrders -
        sellQuantity (observeAll cfg (initState cfg) ps).executedOrders := by
  have hinit : LedgerConserved cfg (initState cfg) := by
    constructor
    · simp [initState, buyCost, sellProceeds]
    · simp [initState, buyQuantity, sellQuantity]
  exact ledgerConserved_observeAll hinit ps

theorem solvent_observePrice {cfg : GridTradingConfig} {s : StrategyState}
    (h : ValidConfig cfg) (p : ℚ)
    (hs : 0 ≤ s.baseTokenBalance ∧ 0 ≤ s.quoteTokenBalance) :
    0 ≤ (observePrice cfg s p).baseTokenBalance ∧
    0 ≤ (observePrice cfg s p).quoteTokenBalance := by
  rcases observePrice_cases cfg s p with h1 | h1 | ⟨q, hsz, hc, h1⟩ | ⟨q, hsz, hc, h1⟩ <;>
    rw [h1]
  · exact hs
  · exact hs
  · constructor
    · exact add_nonneg hs.1 (le_of_lt (getOrderSize_buy_pos h hsz))
    · simpa using sub_nonneg.mpr (not_lt.mp hc)
  · constructor
    · simpa using sub_nonneg.mpr (not_lt.mp hc)
    · have hqnn : 0 ≤ q := getOrderSize_sell_nonneg h hsz
      have hin := inRange_of_index_nonneg (index_nonneg_of_getOrderSize_some hsz)
      have hp : 0 ≤ p := le_trans (le_of_lt h.lower_pos) hin.1
      exact add_nonneg hs.2 (mul_nonneg hqnn hp)

theorem solvent_observeAll {cfg : GridTradingConfig} {s : StrategyState}
    (h : ValidConfig cfg)
    (hs : 0 ≤ s.baseTokenBalance ∧ 0 ≤ s.quoteTokenBalance) (ps : List ℚ) :
    0 ≤ (observeAll cfg s ps).baseTokenBalance ∧
    0 ≤ (observeAll cfg s ps).quoteTokenBalance := by
  induction ps generalizing s with
  | nil => exact hs
  | cons p ps ih =>
      rw [observeAll, List.foldl_cons]
      exact ih (solvent_observePrice h p hs)

/-- C3: starting from the initial state (`baseBalance = 0`,
`quoteBalance = totalInvestment`), after every sequence of price
observations both balances are non-negative.  Since this holds for every
prefix of every sequence, no recorded trade ever drives a balance
negative. -/
theorem c3_solvency (cfg : GridTradingConfig) (h : ValidConfig cfg)
    (ps : List ℚ) :
    0 ≤ (observeAll cfg (initState cfg) ps).baseTokenBalance ∧
    0 ≤ (observeAll cfg (initState cfg) ps).quoteTokenBalance := by
  have hinit : 0 ≤ (initState cfg).baseTokenBalance ∧
      0 ≤ (initState cfg).quoteTokenBalance := by
    refine ⟨le_rfl, ?_⟩
    exact le_of_lt h.investment_pos
  exact solvent_observeAll h hinit ps

/-- The state after observing `20000` from the initial state of `cfg0`:
the seeding buy of `1/2` base at `20000` fires. -/
theorem obs1_cfg0 : observePrice cfg0 (initState cfg0) 20000 =
    ⟨some 20000, [⟨.buy, 20000, 1/2, 0⟩], 1/2, 90000⟩ := by
  rw [observePrice, checkPriceMovement]
  dsimp only [initState]
  rw [idx_cfg0_20000, if_pos rfl, executeBuy, buySize_cfg0_20000]
  dsimp only
  rw [if_neg (by norm_num [cfg0])]
  simp only [Option.map_some', Option.getD_some]
  rw [idx_cfg0_20000]
  norm_num [cfg0]

/-- The state after then observing `21000`: an upward crossing sells the
`1/2` base bought earlier at `21000`. -/
theorem obs2_cfg0 :
    observePrice cfg0 (⟨some 20000, [⟨.buy, 20000, 1/2, 0⟩], 1/2, 90000⟩ :
      StrategyState) 21000 =
    ⟨some 21000, [⟨.buy, 20000, 1/2, 0⟩, ⟨.sell, 21000, 1/2, 1⟩], 0, 100500⟩ := by
  rw [observePrice, checkPriceMovement]
  dsimp only
  rw [idx_cfg0_21000, idx_cfg0_20000]
  rw [if_neg (by norm_num), if_pos (by norm_num)]
  rw [executeSell, sellSize_cfg0_21000]
  dsimp only
  rw [if_neg (by norm_num)]
  simp only [Option.map_some', Option.getD_some]
  rw [idx_cfg0_21000]
  norm_num

theorem lastPrice_of_checkPriceMovement_some {cfg : GridTradingConfig}
    {s s1 : StrategyState} {p : ℚ}
    (h : checkPriceMovement cfg s p = some s1) : s1.lastPrice = some p := by
  rw [checkPriceMovement] at h
  cases hlp : s.lastPrice with
  | none =>
      rw [hlp] at h
      dsimp only at h
      split at h
      · obtain ⟨a, ha, hs1⟩ := Option.map_eq_some'.mp h
        rw [← hs1]
      · obtain rfl := (Option.some.injEq _ _).mp h.symm
        rfl
  | some lp =>
      rw [hlp] at h
      dsimp only at h
      split at h
      · obtain ⟨a, ha, hs1⟩ := Option.map_eq_some'.mp h
        rw [← hs1]
      · split at h
        · obtain ⟨a, ha, hs1⟩ := Option.map_eq_some'.mp h
          rw [← hs1]
        · obtain rfl := (Option.some.injEq _ _).mp h.symm
          rfl

theorem getOrderSizeAtPrice_none_of_neg {cfg : GridTradingConfig} {p : ℚ}
    (t : OrderType) (hi : getCurrentGridIndex cfg p < 0) :
    getOrderSizeAtPrice cfg p t = none := by
  rw [getOrderSizeAtPrice, if_neg (not_le.mpr hi)]

theorem executeBuy_none_iff {cfg : GridTradingConfig} {s : StrategyState}
    {p : ℚ} :
    executeBuy cfg s p = none ↔ getOrderSizeAtPrice cfg p .buy = none := by
  rw [executeBuy]
  cases hq : getOrderSizeAtPrice cfg p .buy with
  | none => simp
  | some q =>
      dsimp only
      constructor
      · intro h
        split at h <;> exact Option.noConfusion h
      · intro h
        exact Option.noConfusion h

theorem executeSell_none_iff {cfg : GridTradingConfig} {s : StrategyState}
    {p : ℚ} :
    executeSell cfg s p = none ↔ getOrderSizeAtPrice cfg p .sell = none := by
  rw [executeSell]
  cases hq : getOrderSizeAtPrice cfg p .sell with
  | none => simp
  | some q =>
      dsimp only
      constructor
      · intro h
        split at h <;> exact Option.noConfusion h
      · intro h
        exact Option.noConfusion h

theorem getOrderSizeAtPrice_isSome_of_nonneg {cfg : GridTradingConfig}
    {p : ℚ} (h : ValidConfig cfg) (t : OrderType)
    (hi : 0 ≤ getCurrentGridIndex cfg p) :
    getOrderSizeAtPrice cfg p t ≠ none := by
  rw [getOrderSizeAtPrice_eq_of_nonneg h t hi]
  exact Option.noConfusion

/-- `checkPriceMovement` throws (returns `none`) exactly in one
situation: there is a previous in-range price and the new price is
out of range, so the downward-crossing branch calls `executeBuy`, which
reads `gridLevels[-1]`. -/
theorem checkPriceMovement_none_cases {cfg : GridTradingConfig}
    {s : StrategyState} {p : ℚ} (hv : ValidConfig cfg)
    (h : checkPriceMovement cfg s p = none) :
    ∃ lp, s.lastPrice = some lp ∧ getCurrentGridIndex cfg p = -1 ∧
      0 ≤ getCurrentGridIndex cfg lp := by
  rw [checkPriceMovement] at h
  cases hlp : s.lastPrice with
  | none =>
      rw [hlp] at h
      dsimp only at h
      split at h
      · rename_i h0
        rw [Option.map_eq_none'] at h
        have : getOrderSizeAtPrice cfg p .buy = none := executeBuy_none_iff.mp h
        exact absurd this
          (getOrderSizeAtPrice_isSome_of_nonneg hv .buy (by rw [h0]))
      · exact Option.noConfusion h
  | some lp =>
      rw [hlp] at h
      dsimp only at h
      split at h
      · rename_i hdown
        rw [Option.map_eq_none'] at h
        have hnone : getOrderSizeAtPrice cfg p .buy = none :=
          executeBuy_none_iff.mp h
        have hneg : getCurrentGridIndex cfg p < 0 := by
          by_contra hge
          exact getOrderSizeAtPrice_isSome_of_nonneg hv .buy (not_lt.mp hge) hnone
        have hm1 : getCurrentGridIndex cfg p = -1 := by
          have := @neg_one_le_getCurrentGridIndex cfg p hv
          omega
        refine ⟨lp, rfl, hm1, ?_⟩
        have := @neg_one_le_getCurrentGridIndex cfg lp hv
        omega
      · split at h
        · rename_i hdown hup
          rw [Option.map_eq_none'] at h
          have hnone : getOrderSizeAtPrice cfg p .sell = none :=
            executeSell_none_iff.mp h
          have hneg : getCurrentGridIndex cfg p < 0 := by
            by_contra hge
            exact getOrderSizeAtPrice_isSome_of_nonneg hv .sell (not_lt.mp hge) hnone
          have := @neg_one_le_getCurrentGridIndex cfg lp hv
          omega
        · exact Option.noConfusion h

theorem sameIndex_second_noop {cfg : GridTradingConfig} {s : StrategyState}
    {p lp : ℚ} (hlp : s.lastPrice = some lp)
    (hidx : getCurrentGridIndex cfg p = getCurrentGridIndex cfg lp) :
    checkPriceMovement cfg s p = some { s with lastPrice := some p } := by
  rw [checkPriceMovement, hlp]
  dsimp only
  rw [hidx, if_neg (lt_irrefl _), if_neg (lt_irrefl _)]

/-- C8 counterexample: `20000` and `20500` both map to grid index `0`,
yet feeding them as consecutive observations from the initial state
leaves a new trade in the history (the seeding buy fired by the first
observation), so the history after both does not equal the history
before. -/
theorem c8_counterexample :
    getCurrentGridIndex cfg0 20000 = getCurrentGridIndex cfg0 20500 ∧
    (observeAll cfg0 (initState cfg0) [20000, 20500]).executedOrders ≠
      (initState cfg0).executedOrders := by
  constructor
  · rw [idx_cfg0_20000, idx_cfg0_20500]
  · have h1 : observePrice cfg0 (initState cfg0) 20000 =
        ⟨some 20000, [⟨.buy, 20000, 1/2, 0⟩], 1/2, 90000⟩ := by
      rw [observePrice, checkPriceMovement]
      dsimp only [initState]
      rw [idx_cfg0_20000, if_pos rfl, executeBuy, buySize_cfg0_20000]
      dsimp only
      rw [if_neg (by norm_num [cfg0])]
      simp only [Option.map_some', Option.getD_some]
      rw [idx_cfg0_20000]
      norm_num [cfg0]
    have h2 : observePrice cfg0 ((⟨some 20000, [⟨.buy, 20000, 1/2, 0⟩], 1/2,
        90000⟩ : StrategyState)) 20500 =
        ⟨some 20500, [⟨.buy, 20000, 1/2, 0⟩], 1/2, 90000⟩ := by
      rw [observePrice,
        sameIndex_second_noop rfl (idx_cfg0_20500.trans idx_cfg0_20000.symm)]
      rfl
    rw [observeAll, List.foldl_cons, List.foldl_cons, List.foldl_nil, h1, h2]
    intro hcontra
    exact List.noConfusion hcontra

/-- C8 amended: of two consecutive observations whose prices map to the
same grid index, the *second* never appends a trade: the history after
both equals the history after the first.  (The first observation may
itself trade — see the counterexample — which is all the original claim
must give up.) -/
theorem c8_no_trade_within_level_amended (cfg : GridTradingConfig)
    (hv : ValidConfig cfg) (s : StrategyState) (p1 p2 : ℚ)
    (hidx : getCurrentGridIndex cfg p1 = getCurrentGridIndex cfg p2) :
    (observePrice cfg (observePrice cfg s p1) p2).executedOrders =
      (observePrice cfg s p1).executedOrders := by
  cases h1 : checkPriceMovement cfg s p1 with
  | some s1 =>
      have hobs : observePrice cfg s p1 = s1 := by
        rw [observePrice, h1]
        rfl
      rw [hobs]
      have hlp := lastPrice_of_checkPriceMovement_some h1
      rw [observePrice, sameIndex_second_noop hlp hidx.symm]
      rfl
  | none =>
      have hobs : observePrice cfg s p1 = s := by
        rw [observePrice, h1]
        rfl
      rw [hobs]
      obtain ⟨lp, hlp, hm1, hpos⟩ := checkPriceMovement_none_cases hv h1
      have h2 : checkPriceMovement cfg s p2 = none := by
        rw [checkPriceMovement, hlp]
        dsimp only
        rw [if_pos (by rw [← hidx, hm1]; omega)]
        rw [Option.map_eq_none']
        rw [executeBuy_none_iff]
        exact getOrderSizeAtPrice_none_of_neg .buy (by rw [← hidx, hm1]; norm_num)
      rw [observePrice, h2]
      rfl

/-- Witness for C8's amended theorem: `cfg0`, the initial state, and the
same-index prices `20000` and `20500`. -/
theorem c8_no_trade_within_level_amended_witness :
    ValidConfig cfg0 ∧
    getCurrentGridIndex cfg0 20000 = getCurrentGridIndex cfg0 20500 ∧
    (observePrice cfg0 (observePrice cfg0 (initState cfg0) 20000) 20500).executedOrders =
      (observePrice cfg0 (initState cfg0) 20000).executedOrders :=
  ⟨validConfig_cfg0, idx_cfg0_20000.trans idx_cfg0_20500.symm,
    c8_no_trade_within_level_amended cfg0 validConfig_cfg0 (initState cfg0)
      20000 20500 (idx_cfg0_20000.trans idx_cfg0_20500.symm)⟩

theorem lotQuantitySum_nil : lotQuantitySum [] = 0 := rfl

theorem lotQuantitySum_cons (l : BuyLot) (lots : List BuyLot) :
    lotQuantitySum (l :: lots) = l.quantity + lotQuantitySum lots := by
  simp [lotQuantitySum]

theorem lotQuantitySum_append (l t : List BuyLot) :
    lotQuantitySum (l ++ t) = lotQuantitySum l + lotQuantitySum t := by
  simp [lotQuantitySum]

/-- The engine's sell-consume loop computes the same realized PnL and the
same remaining queue as the spec's reference consume loop, and its
consumed-quantity counter accounts exactly for the queue mass it
removed. -/
theorem processSell_spec (p : ℚ) (lots : List BuyLot) (q : ℚ) :
    (processSell p lots q).1 = (specConsume p lots q).1 ∧
    (processSell p lots q).2.2 = (specConsume p lots q).2 ∧
    lotQuantitySum (processSell p lots q).2.2 =
      lotQuantitySum lots - (processSell p lots q).2.1 := by
  induction lots generalizing q with
  | nil =>
      refine ⟨rfl, rfl, ?_⟩
      rw [processSell]
      simp [lotQuantitySum]
  | cons lot rest ih =>
      rw [processSell, specConsume]
      dsimp only
      by_cases hq : 0 < q
      · rw [if_pos hq, if_pos hq]
        by_cases hz : lot.quantity - min q lot.quantity = 0
        · rw [if_pos hz, if_pos hz]
          obtain ⟨ih1, ih2, ih3⟩ := ih (q - min q lot.quantity)
          dsimp only
          refine ⟨by rw [ih1], ih2, ?_⟩
          rw [ih3, lotQuantitySum_cons]
          have huse : min q lot.quantity = lot.quantity := by linarith
          rw [huse]
          ring
        · rw [if_neg hz, if_neg hz]
          refine ⟨rfl, rfl, ?_⟩
          dsimp only
          rw [lotQuantitySum_cons, lotQuantitySum_cons]
          ring
      · rw [if_neg hq, if_neg hq]
        exact ⟨rfl, rfl, by ring⟩

/-- The engine's replay accumulator tracks the spec's replay accumulator:
same queue, same realized PnL, and `totalRemainingQty` equal to the
total quantity still in the queue. -/
theorem foldl_pnlStep_spec (orders : List ExecutedOrder) :
    ∀ (a : PnlAcc) (b : ℚ × List BuyLot),
      a.buyStack = b.2 → a.realizedPnL = b.1 →
      a.totalRemainingQty = lotQuantitySum b.2 →
      (orders.foldl pnlStep a).buyStack = (orders.foldl specStep b).2 ∧
      (orders.foldl pnlStep a).realizedPnL = (orders.foldl specStep b).1 ∧
      (orders.foldl pnlStep a).totalRemainingQty =
        lotQuantitySum (orders.foldl specStep b).2 := by
  induction orders with
  | nil =>
      intro a b h1 h2 h3
      exact ⟨h1, h2, h3⟩
  | cons o os ih =>
      intro a b h1 h2 h3
      rw [List.foldl_cons, List.foldl_cons]
      cases hot : o.type with
      | buy =>
          apply ih
          · rw [pnlStep, hot]
            dsimp only
            rw [h1, specStep, hot]
          · rw [pnlStep, hot]
            dsimp only
            rw [h2, specStep, hot]
          · rw [pnlStep, hot]
            dsimp only
            rw [h3, specStep, hot]
            dsimp only
            rw [lotQuantitySum_append, lotQuantitySum_cons, lotQuantitySum_nil]
            ring
      | sell =>
          obtain ⟨hc1, hc2, hc3⟩ := processSell_spec o.price b.2 o.quantity
          apply ih
          · rw [pnlStep, hot]
            dsimp only
            rw [h1, specStep, hot]
            dsimp only
            exact hc2
          · rw [pnlStep, hot]
            dsimp only
            rw [h2, specStep, hot]
            dsimp only
            rw [h1, hc1]
          · rw [pnlStep, hot]
            dsimp only
            rw [h3, specStep, hot]
            dsimp only
            rw [h1, ← hc2, hc3]

theorem lotQuantitySum_nonneg {lots : List BuyLot}
    (h : ∀ l ∈ lots, 0 < l.quantity) : 0 ≤ lotQuantitySum lots := by
  induction lots with
  | nil => exact le_rfl
  | cons l rest ih =>
      rw [lotQuantitySum_cons]
      have hl := h l (List.mem_cons_self l rest)
      have hr := ih fun x hx => h x (List.mem_cons_of_mem l hx)
      linarith

theorem lotQuantitySum_pos {lots : List BuyLot}
    (h : ∀ l ∈ lots, 0 < l.quantity) (hne : lots ≠ []) :
    0 < lotQuantitySum lots := by
  cases lots with
  | nil => exact absurd rfl hne
  | cons l rest =>
      rw [lotQuantitySum_cons]
      have hl := h l (List.mem_cons_self l rest)
      have hr := lotQuantitySum_nonneg fun x hx => h x (List.mem_cons_of_mem l hx)
      linarith

/-- The spec's consume loop keeps every remaining lot strictly positive. -/
theorem specConsume_lots_pos {p q : ℚ} {lots : List BuyLot}
    (h : ∀ l ∈ lots, 0 < l.quantity) :
    ∀ l ∈ (specConsume p lots q).2, 0 < l.quantity := by
  induction lots generalizing q with
  | nil =>
      intro l hl
      rw [specConsume] at hl
      exact absurd hl (List.not_mem_nil l)
  | cons lot rest ih =>
      intro l hl
      rw [specConsume] at hl
      dsimp only at hl
      by_cases hq : 0 < q
      · rw [if_pos hq] at hl
        by_cases hz : lot.quantity - min q lot.quantity = 0
        · rw [if_pos hz] at hl
          exact ih (fun x hx => h x (List.mem_cons_of_mem lot hx)) l hl
        · rw [if_neg hz] at hl
          dsimp only at hl
          rcases List.mem_cons.mp hl with rfl | hmem
          · have hmin : min q lot.quantity ≤ lot.quantity := min_le_right q lot.quantity
            have : 0 ≤ lot.quantity - min q lot.quantity := by linarith
            dsimp only
            rcases lt_or_eq_of_le this with hlt | heq
            · exact hlt
            · exact absurd heq.symm hz
          · exact h l (List.mem_cons_of_mem lot hmem)
      · rw [if_neg hq] at hl
        exact h l hl

/-- If every buy order of a history has positive quantity, every lot left
in the spec replay's queue is strictly positive. -/
theorem foldl_specStep_lots_pos :
    ∀ (orders : List ExecutedOrder) (b : ℚ × List BuyLot),
      (∀ l ∈ b.2, 0 < l.quantity) →
      (∀ o ∈ orders, o.type = .buy → 0 < o.quantity) →
      ∀ l ∈ (orders.foldl specStep b).2, 0 < l.quantity := by
  intro orders
  induction orders with
  | nil =>
      intro b hb _ l hl
      exact hb l hl
  | cons o os ih =>
      intro b hb hos l hl
      rw [List.foldl_cons] at hl
      refine ih _ ?_ (fun x hx ht => hos x (List.mem_cons_of_mem o hx) ht) l hl
      intro x hx
      rw [specStep] at hx
      cases hot : o.type with
      | buy =>
          rw [hot] at hx
          dsimp only at hx
          rcases List.mem_append.mp hx with hmem | hmem
          · exact hb x hmem
          · rcases List.mem_singleton.mp hmem with rfl
            exact hos o (List.mem_cons_self o os) hot
      | sell =>
          rw [hot] at hx
          dsimp only at hx
          exact specConsume_lots_pos hb x hx

theorem specReplay_lots_pos (orders : List ExecutedOrder)
    (hbuys : ∀ o ∈ orders, o.type = .buy → 0 < o.quantity) :
    ∀ l ∈ (specReplay orders).2, 0 < l.quantity := by
  rw [specReplay]
  exact foldl_specStep_lots_pos orders (0, [])
    (fun l hl => absurd hl (List.not_mem_nil l)) hbuys

/-- Every buy order a reachable engine state has recorded carries a
strictly positive quantity. -/
theorem reachable_buys_pos {cfg : GridTradingConfig} (hv : ValidConfig cfg)
    (ps : List ℚ) :
    ∀ o ∈ (observeAll cfg (initState cfg) ps).executedOrders,
      o.type = .buy → 0 < o.quantity := by
  have hgen : ∀ (s : StrategyState),
      (∀ o ∈ s.executedOrders, o.type = .buy → 0 < o.quantity) →
      ∀ o ∈ (observeAll cfg s ps).executedOrders, o.type = .buy → 0 < o.quantity := by
    induction ps with
    | nil => intro s hs; exact hs
    | cons p rest ih =>
        intro s hs
        rw [observeAll, List.foldl_cons]
        apply ih
        rcases observePrice_cases cfg s p with h1 | h1 | ⟨q, hsz, hc, h1⟩ |
          ⟨q, hsz, hc, h1⟩ <;> rw [h1]
        · exact hs
        · exact hs
        · intro o ho ht
          rcases List.mem_append.mp ho with hmem | hmem
          · exact hs o hmem ht
          · rcases List.mem_singleton.mp hmem with rfl
            exact getOrderSize_buy_pos hv hsz
        · intro o ho ht
          rcases List.mem_append.mp ho with hmem | hmem
          · exact hs o hmem ht
          · rcases List.mem_singleton.mp hmem with rfl
            exact absurd ht (by intro hcon; exact OrderType.noConfusion hcon)
  exact hgen (initState cfg) (fun o ho => absurd ho (List.not_mem_nil o))

theorem foldl_lotCost (lots : List BuyLot) (a : ℚ) :
    lots.foldl (fun sum buy => sum + buy.price * buy.quantity) a =
      a + lotCostSum lots := by
  induction lots generalizing a with
  | nil => simp [lotCostSum]
  | cons l rest ih =>
      rw [List.foldl_cons, ih]
      simp [lotCostSum]
      ring

/-- Whenever every lot left on the replayed queue is strictly positive,
the engine's `getCurrentProfitLoss` agrees with the spec's FIFO
reference PnL. -/
theorem getCurrentProfitLoss_eq_spec {s : StrategyState} (currentPrice : ℚ)
    (hpos : ∀ l ∈ (specReplay s.executedOrders).2, 0 < l.quantity) :
    getCurrentProfitLoss s currentPrice =
      specFifoPnL s.executedOrders currentPrice := by
  obtain ⟨hstack, hrl, htot⟩ := foldl_pnlStep_spec s.executedOrders
    ⟨[], 0, 0⟩ (0, []) rfl rfl rfl
  have hsr : s.executedOrders.foldl specStep (0, []) =
      specReplay s.executedOrders := rfl
  rw [hsr] at hstack hrl htot
  rw [getCurrentProfitLoss, specFifoPnL]
  rw [hstack, hrl, htot, foldl_lotCost]
  by_cases hne : (specReplay s.executedOrders).2 = []
  · rw [hne]
    rw [if_neg (by rw [lotQuantitySum_nil]; exact lt_irrefl 0), if_pos rfl]
  · have hposum := lotQuantitySum_pos hpos hne
    rw [if_pos hposum, if_neg hne]
    ring_nf

/-- C1: on every trade history the engine can record (every history
reached by a sequence of price observations from the initial state of a
valid configuration) and for every current price,
`getCurrentProfitLoss` equals the spec's FIFO cost-basis reference
definition `specFifoPnL`. -/
theorem c1_fifo_pnl_refinement (cfg : GridTradingConfig)
    (hv : ValidConfig cfg) (ps : List ℚ) (currentPrice : ℚ) :
    getCurrentProfitLoss (observeAll cfg (initState cfg) ps) currentPrice =
      specFifoPnL (observeAll cfg (initState cfg) ps).executedOrders
        currentPrice := by
  apply getCurrentProfitLoss_eq_spec
  exact specReplay_lots_pos _ (reachable_buys_pos hv ps)

/-- Witness for C1: the concrete configuration `cfg0`, the price
sequence `[20000, 21000]` and current price `21000`. -/
theorem c1_fifo_pnl_refinement_witness :
    ValidConfig cfg0 ∧
    getCurrentProfitLoss (observeAll cfg0 (initState cfg0) [20000, 21000])
        21000 =
      specFifoPnL (observeAll cfg0 (initState cfg0) [20000, 21000]).executedOrders
        21000 :=
  ⟨validConfig_cfg0,
    c1_fifo_pnl_refinement cfg0 validConfig_cfg0 [20000, 21000] 21000⟩

/-- C5 (code bug): after the in-range observation `25000`, observing the
out-of-range price `19000` makes `checkPriceMovement` call `executeBuy`,
which reads `gridLevels[-1]` (`undefined`) and throws a `TypeError`
(modelled `none`) — the engine does raise, contrary to the claim.  The
throw happens before any mutation, so the object state afterwards still
equals the state before the observation. -/
theorem c5_out_of_range_observation_throws :
    checkPriceMovement cfg0 (observePrice cfg0 (initState cfg0) 25000) 19000 =
      none ∧
    observePrice cfg0 (observePrice cfg0 (initState cfg0) 25000) 19000 =
      observePrice cfg0 (initState cfg0) 25000 := by
  have h1 : observePrice cfg0 (initState cfg0) 25000 =
      ⟨some 25000, [], 0, 100000⟩ := by
    rw [observePrice, checkPriceMovement]
    dsimp only [initState]
    rw [idx_cfg0_25000, if_neg (by norm_num)]
    simp only [Option.getD_some]
    norm_num [cfg0]
  have h2 : checkPriceMovement cfg0
      (⟨some 25000, [], 0, 100000⟩ : StrategyState) 19000 = none := by
    rw [checkPriceMovement]
    dsimp only
    rw [idx_cfg0_19000, idx_cfg0_25000]
    rw [if_pos (by norm_num)]
    rw [Option.map_eq_none', executeBuy_none_iff]
    exact buySize_cfg0_19000
  refine ⟨h1 ▸ h2, ?_⟩
  rw [h1, observePrice, h2]
  rfl

/-- C2: with `lowerPrice 20000`, `upperPrice 30000`, `gridCount 10`,
`totalInvestment 100000`, feeding the prices `[20000, 21000]` and then
asking for the profit and loss at `21000` yields exactly
`(100000/10/20000) · (21000 − 20000) = 500`. -/
theorem c2_round_trip_pnl :
    getCurrentProfitLoss (observeAll cfg0 (initState cfg0) [20000, 21000])
      21000 = 500 ∧
    (100000 / 10 / 20000 : ℚ) * (21000 - 20000) = 500 := by
  constructor
  · rw [observeAll, List.foldl_cons, List.foldl_cons, List.foldl_nil,
      obs1_cfg0, obs2_cfg0, getCurrentProfitLoss]
    norm_num [pnlStep, processSell]
  · norm_num

/-- Witness for C3: the concrete configuration `cfg0` with the price
sequence `[20000, 21000, 19000]`. -/
theorem c3_solvency_witness :
    ValidConfig cfg0 ∧
    (0 ≤ (observeAll cfg0 (initState cfg0) [20000, 21000, 19000]).baseTokenBalance ∧
     0 ≤ (observeAll cfg0 (initState cfg0) [20000, 21000, 19000]).quoteTokenBalance) :=
  ⟨validConfig_cfg0, c3_solvency cfg0 validConfig_cfg0 [20000, 21000, 19000]⟩

/-- C7: for in-range prices the grid index is
`⌊(price − lowerPrice)/gridSpacing⌋`, is non-decreasing in the price,
maps `lowerPrice` to `0` and `upperPrice` to `gridCount`; every strictly
out-of-range price is mapped to the sentinel `-1`. -/
theorem c7_grid_index_contract (cfg : GridTradingConfig) (h : ValidConfig cfg) :
    (∀ p : ℚ, cfg.lowerPrice ≤ p → p ≤ cfg.upperPrice →
      getCurrentGridIndex cfg p = ⌊(p - cfg.lowerPrice) / gridSpacing cfg⌋) ∧
    (∀ p q : ℚ, cfg.lowerPrice ≤ p → p ≤ q → q ≤ cfg.upperPrice →
      getCurrentGridIndex cfg p ≤ getCurrentGridIndex cfg q) ∧
    getCurrentGridIndex cfg cfg.lowerPrice = 0 ∧
    getCurrentGridIndex cfg cfg.upperPrice = (cfg.gridCount : ℤ) ∧
    (∀ p : ℚ, p < cfg.lowerPrice ∨ cfg.upperPrice < p →
      getCurrentGridIndex cfg p = -1) := by
  refine ⟨fun p h1 h2 => getCurrentGridIndex_of_inRange h1 h2, ?_,
    getCurrentGridIndex_lowerPrice h, getCurrentGridIndex_upperPrice h,
    fun p hp => getCurrentGridIndex_of_outOfRange hp⟩
  intro p q h1 hpq h2
  rw [getCurrentGridIndex_of_inRange h1 (le_trans hpq h2),
    getCurrentGridIndex_of_inRange (le_trans h1 hpq) h2]
  apply Int.floor_le_floor
  exact (div_le_div_iff_of_pos_right (gridSpacing_pos h)).mpr (by linarith)

/-- Witness for C7 at the concrete configuration `cfg0`, evaluating the
monotonicity part at prices `20500 ≤ 25000`. -/
theorem c7_grid_index_contract_witness :
    ValidConfig cfg0 ∧
    getCurrentGridIndex cfg0 cfg0.lowerPrice = 0 ∧
    getCurrentGridIndex cfg0 cfg0.upperPrice = (cfg0.gridCount : ℤ) ∧
    getCurrentGridIndex cfg0 20500 ≤ getCurrentGridIndex cfg0 25000 ∧
    getCurrentGridIndex cfg0 19000 = -1 := by
  have hv : ValidConfig cfg0 := ⟨by norm_num [cfg0], by norm_num [cfg0],
    by norm_num [cfg0], by norm_num [cfg0]⟩
  obtain ⟨hin, hmono, hlo, hup, hout⟩ := c7_grid_index_contract cfg0 hv
  exact ⟨hv, hlo, hup,
    hmono 20500 25000 (by norm_num [cfg0]) (by norm_num) (by norm_num [cfg0]),
    hout 19000 (Or.inl (by norm_num [cfg0]))⟩
